import Mathlib

/-!
# Verification of the quote-navigation / theming logic of `the-pillars-of-wisdom`

Shallow embedding, in Lean 4, of the behavioural core of the repository:

* the quote-record schema (`src/types/quote.ts`),
* the deterministic cyclic navigator (`src/composables/useQuotes.ts`),
* the random-with-history navigator (`src/unnamed/part_008`),
* the theme resolver of the `ThemeToggle` component (second document of
  `src/components/Bio.vue`),
* the sanitisation pipeline of the `Citation` component (`src/unnamed/part_005`)
  and the share-text pipeline (`src/components/ShareButtons.vue`),
* the image-preload helper (`src/unnamed/part_007`).

JavaScript numbers are embedded as `Int` (or `Nat` where the source value is
provably non-negative), JS `undefined`/`null` as `Option`, a thrown exception
as `Except.error`, and `Math.random()`-driven loops are parametrised by the
list of successive draws the loop consumes.  On the non-negative dividends
arising here, JS `%` agrees with Lean's Euclidean `%` on `Int`.
-/

/-- `QuoteAuthor` from `src/types/quote.ts`: all fields optional. -/
structure QuoteAuthor where
  name : Option String
  bio : Option String
  photo : Option String
deriving Repr, DecidableEq

/-- `QuoteItem` from `src/types/quote.ts`: `id` and `text` mandatory,
`author` optional. -/
structure QuoteItem where
  id : String
  text : String
  author : Option QuoteAuthor
deriving Repr, DecidableEq

/-! ## Deterministic cyclic navigator (`src/composables/useQuotes.ts`)

The composable closes over the module-level `quotes` array; we pass the
collection (or just its length) explicitly.  The mutable `currentIndex` ref
becomes an explicit state record. -/

/-- The navigator state of `useQuotes` in `src/composables/useQuotes.ts`:
just the `currentIndex` ref (a JS number, embedded as `Int`). -/
structure CycState where
  currentIndex : Int
deriving Repr, DecidableEq

/-- `nextQuote()` of `src/composables/useQuotes.ts`:
`if (!total.value) return; currentIndex.value = (currentIndex.value + 1) % total.value`. -/
def nextQuoteC (total : Nat) (s : CycState) : CycState :=
  if total = 0 then s
  else { currentIndex := (s.currentIndex + 1) % (total : Int) }

/-- `prevQuote()` of `src/composables/useQuotes.ts`:
`if (!total.value) return; currentIndex.value = (currentIndex.value - 1 + total.value) % total.value`. -/
def prevQuoteC (total : Nat) (s : CycState) : CycState :=
  if total = 0 then s
  else { currentIndex := (s.currentIndex - 1 + (total : Int)) % (total : Int) }

/-- `currentPosition` computed of `src/composables/useQuotes.ts`:
`if (!total.value) return 0; return currentIndex.value + 1`. -/
def currentPositionC (total : Nat) (s : CycState) : Int :=
  if total = 0 then 0 else s.currentIndex + 1

/-- `currentQuote` computed of `src/composables/useQuotes.ts`:
`if (!total.value) return null; return quotes[currentIndex.value] ?? null`.
JS array indexing out of range yields `undefined`, hence `?? null`;
both collapse to `none`. -/
def currentQuoteC (quotes : List QuoteItem) (s : CycState) : Option QuoteItem :=
  if quotes.length = 0 then none
  else quotes[s.currentIndex.toNat]?

/-- One user interaction with the cyclic navigator. -/
inductive COp where
  | next
  | prev
deriving Repr, DecidableEq

/-- Run a finite sequence of `nextQuote`/`prevQuote` calls on the cyclic
navigator. -/
def runC (total : Nat) : List COp → CycState → CycState
  | [], s => s
  | COp.next :: ops, s => runC total ops (nextQuoteC total s)
  | COp.prev :: ops, s => runC total ops (prevQuoteC total s)

/-! ## Random-with-history navigator (`src/unnamed/part_008`)

`Math.floor(Math.random() * length)` produces a value in `[0, length)`; we
embed the random source as the list of successive draws the `while` loop
consumes.  An exhausted draw list models the (probability-zero) divergence of
the `while` loop, as `none`. -/

/-- The `while (next === current)` loop body of `pickNewIndex`
(`src/unnamed/part_008`): consume draws until one differs from `current`. -/
def pickLoop (current : Nat) : List Nat → Option Nat
  | [] => none
  | d :: ds => if d = current then pickLoop current ds else some d

/-- `pickNewIndex(current, length)` of `src/unnamed/part_008`:
`if (length <= 1) return 0;` then draw until the value differs from
`current`. -/
def pickNewIndex (current length : Nat) (draws : List Nat) : Option Nat :=
  if length ≤ 1 then some 0 else pickLoop current draws

/-- State of the random-with-history navigator (`src/unnamed/part_008`):
`currentIndex` ref and the `history` ref (LIFO stack of indices). -/
structure RandState where
  currentIndex : Nat
  history : List Nat
deriving Repr, DecidableEq

/-- `nextQuote()` of `src/unnamed/part_008`:
`if (!quotes.length) return; history.value.push(currentIndex.value);
currentIndex.value = pickNewIndex(...)`.  `none` models divergence of the
random draw loop. -/
def nextQuoteR (total : Nat) (draws : List Nat) (s : RandState) : Option RandState :=
  if total = 0 then some s
  else (pickNewIndex s.currentIndex total draws).map
    fun r => { currentIndex := r, history := s.currentIndex :: s.history }

/-- `prevQuote()` of `src/unnamed/part_008`:
`const prev = history.value.pop(); if (prev === undefined) return;
currentIndex.value = prev`. -/
def prevQuoteR (s : RandState) : RandState :=
  match s.history with
  | [] => s
  | p :: rest => { currentIndex := p, history := rest }

/-- `canPrev` computed of `src/unnamed/part_008`:
`history.value.length > 0`. -/
def canPrev (s : RandState) : Bool :=
  decide (s.history.length > 0)

/-- `currentQuote` computed of `src/unnamed/part_008`:
`if (!quotes.length) return null; return quotes[currentIndex.value] ?? null`. -/
def currentQuoteR (quotes : List QuoteItem) (s : RandState) : Option QuoteItem :=
  if quotes.length = 0 then none
  else quotes[s.currentIndex]?

/-- One user interaction with the random-with-history navigator; a `next`
carries the draws its random loop consumes. -/
inductive ROp where
  | next (draws : List Nat)
  | prev
deriving Repr, DecidableEq

/-- Run a finite sequence of `nextQuote`/`prevQuote` calls on the
random-with-history navigator; `none` as soon as some random loop
diverges. -/
def runR (total : Nat) : List ROp → RandState → Option RandState
  | [], s => some s
  | ROp.next ds :: ops, s => (nextQuoteR total ds s).bind (runR total ops)
  | ROp.prev :: ops, s => runR total ops (prevQuoteR s)

/-- The draws an operation consumes (`prev` draws nothing). -/
def drawsOf : ROp → List Nat
  | ROp.next ds => ds
  | ROp.prev => []

/-- Every draw fed to a `next` in the sequence is a possible
`Math.floor(Math.random() * total)` outcome, i.e. `< total`. -/
def ValidDraws (total : Nat) (ops : List ROp) : Prop :=
  ∀ op ∈ ops, ∀ d ∈ drawsOf op, d < total

/-! ## Theme resolver (`ThemeToggle`, second document of `src/components/Bio.vue`)

The component state is the `isDark` ref; the observable world is the
`data-theme` attribute on `<html>` and the `localStorage` entry under
`"good-mood.theme"`.  We additionally count the writes `applyTheme` performs,
to settle the frame/effect claims.  The host environment is embedded as:
`localStorageItem = none` models an environment without `localStorage`
(accessing it throws, i.e. `Except.error`), `some v` models a present store
whose `getItem(STORAGE_KEY)` returns `v`; `prefersDark = none` models a
missing `window`/`window.matchMedia` (the `typeof` guards fail), `some b`
a present `matchMedia` whose `"(prefers-color-scheme: dark)"` query has
`matches = b`. -/

/-- The theme string `applyTheme` derives: `dark ? "dark" : "light"`. -/
def themeName (dark : Bool) : String :=
  if dark then "dark" else "light"

/-- Observable world touched by `applyTheme`: the `data-theme` attribute on
`document.documentElement`, the stored value under `"good-mood.theme"`, and
write counters for both sinks. -/
structure ThemeDom where
  dataTheme : Option String
  storedTheme : Option String
  attrWrites : Nat
  storageWrites : Nat
deriving Repr, DecidableEq

/-- `applyTheme(dark)` of `Bio.vue` (ThemeToggle document):
`document.documentElement.setAttribute("data-theme", theme)` then
`localStorage.setItem(STORAGE_KEY, theme)` — exactly one write to each
sink per call. -/
def applyTheme (dark : Bool) (d : ThemeDom) : ThemeDom :=
  { dataTheme := some (themeName dark)
    storedTheme := some (themeName dark)
    attrWrites := d.attrWrites + 1
    storageWrites := d.storageWrites + 1 }

/-- Host environment as seen by the `onMounted` hook of ThemeToggle. -/
structure ThemeEnv where
  localStorageItem : Option (Option String)
  prefersDark : Option Bool
deriving Repr, DecidableEq

/-- The resolution part of the `onMounted` hook of ThemeToggle
(`src/components/Bio.vue`): read `localStorage.getItem(STORAGE_KEY)`
(throws when the persistence layer is absent — there is no `typeof` guard
on `localStorage` in the source); a valid saved value (`"dark"`/`"light"`)
wins; otherwise the guarded ambient signal
`typeof window !== "undefined" && typeof window.matchMedia === "function" &&
window.matchMedia("(prefers-color-scheme: dark)").matches`, whose absence
yields `false`.  Returns the resolved `isDark`. -/
def resolveInitialIsDark (env : ThemeEnv) : Except Unit Bool :=
  match env.localStorageItem with
  | none => Except.error ()
  | some saved =>
    if saved == some "dark" || saved == some "light" then
      Except.ok (saved == some "dark")
    else
      Except.ok (env.prefersDark.getD false)

/-- `resolveInitialTheme()` of the spec, as realised by the `onMounted` hook:
the resolved `isDark` rendered as the theme string. -/
def resolveInitialTheme (env : ThemeEnv) : Except Unit String :=
  (resolveInitialIsDark env).map themeName

/-- The full `onMounted` hook: resolve the initial theme, then
`applyTheme(isDark.value)`.  Returns the resolved flag and the updated
observable world. -/
def mountTheme (env : ThemeEnv) (d : ThemeDom) : Except Unit (Bool × ThemeDom) :=
  (resolveInitialIsDark env).map fun dark => (dark, applyTheme dark d)

/-- Component state of ThemeToggle: the `isDark` ref plus the observable
world. -/
structure ThemeState where
  isDark : Bool
  dom : ThemeDom
deriving Repr, DecidableEq

/-- `setTheme(value)` of the spec, as realised by the component: assigning
`isDark` triggers `watch(isDark, (v) => applyTheme(v))`
(`src/components/Bio.vue` line 139). -/
def setTheme (dark : Bool) (s : ThemeState) : ThemeState :=
  { isDark := dark, dom := applyTheme dark s.dom }

/-- `toggleTheme()` of the spec, as realised by the checkbox `v-model`
flip of `isDark` plus the `watch` firing `applyTheme` on the changed
value. -/
def toggleTheme (s : ThemeState) : ThemeState :=
  setTheme (!s.isDark) s

/-! ## Image preload helper (`src/unnamed/part_007`) -/

/-- The module-scoped `preloaded : Set<string>` cache together with a log of
the image fetches actually issued (each `img.src = src` assignment). -/
structure PreloadState where
  preloaded : List String
  fetches : List String
deriving Repr, DecidableEq

/-- `preloadImage(src?)` of `src/unnamed/part_007`:
`if (!src) return` (absent or empty string — both falsy);
`if (preloaded.has(src)) return`; otherwise create an `Image`, assign
`img.src` (issuing the fetch) and add `src` to the set. -/
def preloadImage (src : Option String) (st : PreloadState) : PreloadState :=
  match src with
  | none => st
  | some s =>
    if s = "" then st
    else if s ∈ st.preloaded then st
    else { preloaded := s :: st.preloaded, fetches := st.fetches ++ [s] }

/-- The TS access `(q as any).authorImage` in `src/unnamed/part_007`.
`authorImage` is not a declared field of `QuoteItem`
(`src/types/quote.ts` puts the author picture at `author.photo`), so on a
schema-conforming record the property read yields `undefined`. -/
def anyAuthorImage (_q : QuoteItem) : Option String :=
  none

/-- The `watch(currentIndex, ..., { immediate: true })` handler of
`src/unnamed/part_007`: on an index change (and at first display) preload
`(quotes[idx] as any).authorImage` and
`(quotes[(idx + 1) % total] as any).authorImage`.  The record lookups are
embedded as `Option`s (`getElem?`); the handler only ever receives in-range
indices, for which the lookup is `some`. -/
def watchCurrentIndex (quotes : List QuoteItem) (idx : Nat) (st : PreloadState) :
    PreloadState :=
  if quotes.length = 0 then st
  else
    let curr := quotes[idx]?
    let nxt := quotes[(idx + 1) % quotes.length]?
    preloadImage (nxt.bind anyAuthorImage)
      (preloadImage (curr.bind anyAuthorImage) st)

/-- A session: the sequence of index values the watcher fires on. -/
def runSession (quotes : List QuoteItem) : List Nat → PreloadState → PreloadState
  | [], st => st
  | i :: evs, st => runSession quotes evs (watchCurrentIndex quotes i st)

/-- A session of raw `preloadImage` calls (the helper in isolation). -/
def runPreloads : List (Option String) → PreloadState → PreloadState
  | [], st => st
  | src :: rest, st => runPreloads rest (preloadImage src st)

/-! ## Sanitisation pipeline (`Citation`, `src/unnamed/part_005`) and
share-text pipeline (`src/components/ShareButtons.vue`)

Strings are processed as `List Char`.  `String.prototype.replaceAll` with a
single-character pattern is a per-character substitution.  The two regex
replacements (`/&lt;br\s*\/?&gt;/gi` and `/<br\s*\/?>/gi`, both with the
global flag) are embedded as left-to-right scanners: at each position try to
match the pattern; on a match emit the replacement and resume after the
match, otherwise emit the character and advance by one.  The scanners are
written with explicit fuel (one unit per emitted chunk; the input length is
always enough) so that they are structurally recursive and kernel-computable;
the wrapper functions fix the fuel at the input length. -/

/-- `String.prototype.replaceAll(pat, repl)` for a one-character pattern
`pat`, on character lists. -/
def replaceAllChar (pat : Char) (repl : List Char) (l : List Char) : List Char :=
  l.flatMap fun c => if c = pat then repl else [c]

/-- `escapeHtml(input)` of `src/unnamed/part_005`: the chain
`.replaceAll("&","&amp;").replaceAll("<","&lt;").replaceAll(">","&gt;")
.replaceAll(QUOT,"&quot;").replaceAll(APOS,"&#039;")`, applied left to
right (`Char.ofNat 34` is the double quote, `Char.ofNat 39` the
apostrophe). -/
def escapeHtmlL (l : List Char) : List Char :=
  replaceAllChar (Char.ofNat 39) "&#039;".data
    (replaceAllChar (Char.ofNat 34) "&quot;".data
      (replaceAllChar '>' "&gt;".data
        (replaceAllChar '<' "&lt;".data
          (replaceAllChar '&' "&amp;".data l))))

/-- `escapeHtml` on `String`. -/
def escapeHtml (s : String) : String :=
  String.mk (escapeHtmlL s.data)

/-- JavaScript's regex `\s` character class (ECMA-262 WhiteSpace and
LineTerminator code points). -/
def isJsSpace (c : Char) : Bool :=
  c == Char.ofNat 32 || c == Char.ofNat 9 || c == Char.ofNat 10 ||
  c == Char.ofNat 11 || c == Char.ofNat 12 || c == Char.ofNat 13 ||
  c == Char.ofNat 160 || c == Char.ofNat 5760 ||
  (8192 ≤ c.toNat && c.toNat ≤ 8202) ||
  c == Char.ofNat 8232 || c == Char.ofNat 8233 || c == Char.ofNat 8239 ||
  c == Char.ofNat 8287 || c == Char.ofNat 12288 || c == Char.ofNat 65279

/-- Greedy `\s*`: skip the longest run of JS whitespace. -/
def skipWs : List Char → List Char
  | [] => []
  | c :: cs => if isJsSpace c then skipWs cs else c :: cs

/-- Match one character satisfying `p`, then continue with `k`. -/
def expectChar (p : Char → Bool) (k : List Char → Option (List Char)) :
    List Char → Option (List Char)
  | [] => none
  | c :: rest => if p c then k rest else none

/-- The literal `&gt;` tail of the entity pattern (`g`/`t` case-insensitive
under the `i` flag). -/
def matchEntGt : List Char → Option (List Char) :=
  expectChar (fun c => c == '&')
    (expectChar (fun c => c.toLower == 'g')
      (expectChar (fun c => c.toLower == 't')
        (expectChar (fun c => c == ';') some)))

/-- The `\s*\/?&gt;` tail of the entity pattern: greedy whitespace, optional
slash, then `&gt;`.  (No whitespace character equals `/` or `&`, so the
greedy skip never needs backtracking.) -/
def matchEntClose (l : List Char) : Option (List Char) :=
  match skipWs l with
  | [] => none
  | c :: rest => if c == '/' then matchEntGt rest else matchEntGt (c :: rest)

/-- One attempt of the regex `/&lt;br\s*\/?&gt;/gi` of `src/unnamed/part_005`
at the head of the input: `&lt;` then `br` (case-insensitive) then
`\s*\/?&gt;`; returns the remainder after the match. -/
def matchBrEnt : List Char → Option (List Char) :=
  expectChar (fun c => c == '&')
    (expectChar (fun c => c.toLower == 'l')
      (expectChar (fun c => c.toLower == 't')
        (expectChar (fun c => c == ';')
          (expectChar (fun c => c.toLower == 'b')
            (expectChar (fun c => c.toLower == 'r') matchEntClose)))))

/-- The `>` tail of the tag pattern. -/
def matchTagEnd : List Char → Option (List Char) :=
  expectChar (fun c => c == '>') some

/-- The `\s*\/?>` tail of the tag pattern. -/
def matchTagClose (l : List Char) : Option (List Char) :=
  match skipWs l with
  | [] => none
  | c :: rest => if c == '/' then matchTagEnd rest else matchTagEnd (c :: rest)

/-- One attempt of the regex `/<br\s*\/?>/gi` of
`src/components/ShareButtons.vue` at the head of the input. -/
def matchBrTag : List Char → Option (List Char) :=
  expectChar (fun c => c == '<')
    (expectChar (fun c => c.toLower == 'b')
      (expectChar (fun c => c.toLower == 'r') matchTagClose))

/-- Fuelled scanner for
`safe.replace(/&lt;br\s*\/?&gt;/gi, "<br>")` of `src/unnamed/part_005`.
Each step consumes at least one character, so fuel `l.length` always
suffices; the fuel-exhausted branch is unreachable then. -/
def reEnableBrF : Nat → List Char → List Char
  | _, [] => []
  | 0, c :: cs => c :: cs
  | fuel + 1, c :: cs =>
    match matchBrEnt (c :: cs) with
    | some rest => '<' :: 'b' :: 'r' :: '>' :: reEnableBrF fuel rest
    | none => c :: reEnableBrF fuel cs

/-- `safe.replace(/&lt;br\s*\/?&gt;/gi, "<br>")` of `src/unnamed/part_005`. -/
def reEnableBr (l : List Char) : List Char :=
  reEnableBrF l.length l

/-- `citationHtml` computed of `src/unnamed/part_005`: escape everything,
then re-allow only the `<br>` variants. -/
def citationHtml (text : String) : String :=
  String.mk (reEnableBr (escapeHtmlL text.data))

/-- Fuelled scanner for `input.replace(/<br\s*\/?>/gi, "\n")` of
`src/components/ShareButtons.vue`. -/
def toPlainTextF : Nat → List Char → List Char
  | _, [] => []
  | 0, c :: cs => c :: cs
  | fuel + 1, c :: cs =>
    match matchBrTag (c :: cs) with
    | some rest => Char.ofNat 10 :: toPlainTextF fuel rest
    | none => c :: toPlainTextF fuel cs

/-- `toPlainText(input)` of `src/components/ShareButtons.vue` on character
lists: each `<br>`/`<br/>`/`<br />` (any case) becomes a newline. -/
def toPlainTextL (l : List Char) : List Char :=
  toPlainTextF l.length l

/-- `toPlainText` on `String`. -/
def toPlainText (s : String) : String :=
  String.mk (toPlainTextL s.data)

/-- `shareText` computed of `src/components/ShareButtons.vue`:
`const plain = toPlainText(props.text); return props.author
? plain + EMDASH + props.author : plain` (JS truthiness: an absent or
empty author string selects the bare text). -/
def shareText (text : String) (author : Option String) : String :=
  let plain := toPlainText text
  match author with
  | none => plain
  | some a => if a = "" then plain else plain ++ " — " ++ a

/-- A complete line-break marker as described by the spec: `<br>`, `<br/>`
or `<br />` in any letter case, with any run of JS whitespace before the
optional slash. -/
def IsBrMarker (m : List Char) : Prop :=
  ∃ b r ws sl,
    (b = 'b' ∨ b = 'B') ∧ (r = 'r' ∨ r = 'R') ∧
    (∀ c ∈ ws, isJsSpace c = true) ∧ (sl = [] ∨ sl = [ '/' ]) ∧
    m = '<' :: b :: r :: (ws ++ sl ++ [ '>' ])

/-- Markup-free-but-`<br>` output shape: a character list that is an
interleaving of literal `<br>` blocks and characters that are neither `<`
nor `>`. -/
inductive BrSafe : List Char → Prop where
  | nil : BrSafe []
  | br {rest : List Char} : BrSafe rest →
      BrSafe ('<' :: 'b' :: 'r' :: '>' :: rest)
  | chr {c : Char} {rest : List Char} : c ≠ '<' → c ≠ '>' → BrSafe rest →
      BrSafe (c :: rest)

/-! ## Navigation lemmas -/

/-- The `while` loop of `pickNewIndex` returns one of its draws, and one that
differs from `current`. -/
theorem pickLoop_spec {current r : Nat} :
    ∀ {ds : List Nat}, pickLoop current ds = some r → r ∈ ds ∧ r ≠ current := by
  intro ds
  induction ds with
  | nil => intro h; simp [pickLoop] at h
  | cons d ds ih =>
    intro h
    simp only [pickLoop] at h
    split at h
    · obtain ⟨h1, h2⟩ := ih h
      exact ⟨List.mem_cons_of_mem _ h1, h2⟩
    · rename_i hd
      injection h with h
      subst h
      exact ⟨List.mem_cons_self _ _, hd⟩

/-- A successful `pickNewIndex` stays inside `[0, length)` when every draw
does. -/
theorem pickNewIndex_lt {current n r : Nat} {draws : List Nat}
    (hn : 0 < n) (hd : ∀ d ∈ draws, d < n)
    (h : pickNewIndex current n draws = some r) : r < n := by
  simp only [pickNewIndex] at h
  split at h
  · injection h with h; omega
  · exact hd r (pickLoop_spec h).1

/-- With at least two quotes, a successful `pickNewIndex` never returns the
index it started from. -/
theorem pickNewIndex_ne {current n r : Nat} {draws : List Nat}
    (hn : 1 < n) (h : pickNewIndex current n draws = some r) : r ≠ current := by
  simp only [pickNewIndex] at h
  rw [if_neg (by omega)] at h
  exact (pickLoop_spec h).2

/-- Shape of a successful `nextQuote()` of the random navigator on a
non-empty collection: the pre-advance index is pushed and the picked index
installed. -/
theorem nextQuoteR_some {n : Nat} {draws : List Nat} {s s2 : RandState}
    (hn : 0 < n) (h : nextQuoteR n draws s = some s2) :
    ∃ r, pickNewIndex s.currentIndex n draws = some r ∧
      s2 = { currentIndex := r, history := s.currentIndex :: s.history } := by
  rw [nextQuoteR, if_neg (by omega : ¬ n = 0)] at h
  cases hp : pickNewIndex s.currentIndex n draws with
  | none => rw [hp] at h; simp at h
  | some r =>
    rw [hp] at h
    simp only [Option.map_some'] at h
    injection h with h
    exact ⟨r, rfl, h.symm⟩

/-- `prevQuote()` of the random navigator preserves the range invariant. -/
theorem prevQuoteR_inv {n : Nat} {s : RandState}
    (h1 : s.currentIndex < n) (h2 : ∀ i ∈ s.history, i < n) :
    (prevQuoteR s).currentIndex < n ∧ ∀ i ∈ (prevQuoteR s).history, i < n := by
  cases hh : s.history with
  | nil =>
    have he : prevQuoteR s = s := by unfold prevQuoteR; rw [hh]
    rw [he]
    exact ⟨h1, h2⟩
  | cons p rest =>
    have he : prevQuoteR s = { currentIndex := p, history := rest } := by
      unfold prevQuoteR; rw [hh]
    rw [he]
    refine ⟨h2 p (by rw [hh]; exact List.mem_cons_self _ _), ?_⟩
    intro i hi
    exact h2 i (by rw [hh]; exact List.mem_cons_of_mem _ hi)

/-- Range invariant of the random-with-history navigator over any run. -/
theorem runR_inv {n : Nat} (hn : 0 < n) :
    ∀ {ops : List ROp} {s fin : RandState},
      ValidDraws n ops →
      s.currentIndex < n → (∀ i ∈ s.history, i < n) →
      runR n ops s = some fin →
      fin.currentIndex < n ∧ ∀ i ∈ fin.history, i < n := by
  intro ops
  induction ops with
  | nil =>
    intro s fin _ h1 h2 h
    simp only [runR] at h
    injection h with h
    subst h
    exact ⟨h1, h2⟩
  | cons op ops ih =>
    intro s fin hv h1 h2 h
    have hvt : ValidDraws n ops := fun o ho d hd => hv o (List.mem_cons_of_mem _ ho) d hd
    cases op with
    | next ds =>
      simp only [runR] at h
      cases hs : nextQuoteR n ds s with
      | none => rw [hs] at h; simp at h
      | some s1 =>
        rw [hs] at h
        simp only [Option.some_bind] at h
        obtain ⟨r, hp, rfl⟩ := nextQuoteR_some hn hs
        have hdr : ∀ d ∈ ds, d < n := by
          have hx := hv (ROp.next ds) (List.mem_cons_self _ _)
          simpa [drawsOf] using hx
        refine ih hvt (pickNewIndex_lt hn hdr hp) ?_ h
        intro i hi
        rcases List.mem_cons.mp hi with hi | hi
        · omega
        · exact h2 i hi
    | prev =>
      simp only [runR] at h
      obtain ⟨h1x, h2x⟩ := prevQuoteR_inv h1 h2
      exact ih hvt h1x h2x h

/-- `nextQuote()` of the cyclic navigator lands in `[0, total)`. -/
theorem nextQuoteC_range {n : Nat} (hn : 0 < n) (s : CycState) :
    0 ≤ (nextQuoteC n s).currentIndex ∧ (nextQuoteC n s).currentIndex < n := by
  have hn' : (0 : Int) < (n : Int) := by exact_mod_cast hn
  rw [nextQuoteC, if_neg (by omega : ¬ n = 0)]
  exact ⟨Int.emod_nonneg _ (by omega), Int.emod_lt_of_pos _ hn'⟩

/-- `prevQuote()` of the cyclic navigator lands in `[0, total)`. -/
theorem prevQuoteC_range {n : Nat} (hn : 0 < n) (s : CycState) :
    0 ≤ (prevQuoteC n s).currentIndex ∧ (prevQuoteC n s).currentIndex < n := by
  have hn' : (0 : Int) < (n : Int) := by exact_mod_cast hn
  rw [prevQuoteC, if_neg (by omega : ¬ n = 0)]
  exact ⟨Int.emod_nonneg _ (by omega), Int.emod_lt_of_pos _ hn'⟩

/-- Range invariant of the cyclic navigator over any run. -/
theorem runC_inv {n : Nat} (hn : 0 < n) :
    ∀ (ops : List COp) (s : CycState),
      0 ≤ s.currentIndex → s.currentIndex < n →
      0 ≤ (runC n ops s).currentIndex ∧ (runC n ops s).currentIndex < n := by
  intro ops
  induction ops with
  | nil => intro s h0 h1; simpa [runC] using ⟨h0, h1⟩
  | cons op ops ih =>
    intro s h0 h1
    cases op with
    | next =>
      simp only [runC]
      exact ih _ (nextQuoteC_range hn s).1 (nextQuoteC_range hn s).2
    | prev =>
      simp only [runC]
      exact ih _ (prevQuoteC_range hn s).1 (prevQuoteC_range hn s).2

/-- An in-range cursor makes `currentQuote` of the cyclic navigator return an
element of the collection. -/
theorem currentQuoteC_mem {quotes : List QuoteItem} {s : CycState}
    (h0 : 0 ≤ s.currentIndex) (h1 : s.currentIndex < quotes.length) :
    ∃ q, currentQuoteC quotes s = some q ∧ q ∈ quotes := by
  have hlen : ¬ quotes.length = 0 := by omega
  have hidx : s.currentIndex.toNat < quotes.length := by omega
  refine ⟨quotes[s.currentIndex.toNat], ?_, List.getElem_mem hidx⟩
  rw [currentQuoteC, if_neg hlen]
  exact List.getElem?_eq_getElem hidx

/-- An in-range cursor makes `currentQuote` of the random navigator return an
element of the collection. -/
theorem currentQuoteR_mem {quotes : List QuoteItem} {s : RandState}
    (h1 : s.currentIndex < quotes.length) :
    ∃ q, currentQuoteR quotes s = some q ∧ q ∈ quotes := by
  have hlen : ¬ quotes.length = 0 := by omega
  refine ⟨quotes[s.currentIndex], ?_, List.getElem_mem h1⟩
  rw [currentQuoteR, if_neg hlen]
  exact List.getElem?_eq_getElem h1

/-- Cyclic `nextQuote()` iterated `k` times adds `k` to the cursor modulo
`total`. -/
theorem runC_replicate_next {n : Nat} (hn : 0 < n) :
    ∀ (k : Nat) (i : Int), 0 ≤ i → i < n →
      runC n (List.replicate k COp.next) { currentIndex := i } =
        { currentIndex := (i + (k : Int)) % (n : Int) } := by
  have hn' : (0 : Int) < (n : Int) := by exact_mod_cast hn
  intro k
  induction k with
  | zero =>
    intro i h0 h1
    simp only [List.replicate, runC, Nat.cast_zero, add_zero]
    rw [Int.emod_eq_of_lt h0 h1]
  | succ k ih =>
    intro i h0 h1
    simp only [List.replicate, runC, nextQuoteC, if_neg (by omega : ¬ n = 0)]
    rw [ih ((i + 1) % (n : Int)) (Int.emod_nonneg _ (by omega)) (Int.emod_lt_of_pos _ hn')]
    congr 1
    rw [Int.emod_add_emod]
    push_cast
    ring_nf

/-- C1: for every non-empty collection, starting from index `0`, any finite
sequence of `next()`/`prev()` calls leaves the cursor inside
`[0, collection.length)` — under the cyclic policy and under the
random-with-history policy — so `current()` returns an element of the
original collection. -/
theorem claim_C1_current_in_collection
    (n : Nat) (quotes : List QuoteItem) (hq : quotes.length = n) (hn : 0 < n)
    (cops : List COp) (rops : List ROp) (hv : ValidDraws n rops)
    (rfin : RandState)
    (hrun : runR n rops { currentIndex := 0, history := [] } = some rfin) :
    (0 ≤ (runC n cops { currentIndex := 0 }).currentIndex ∧
      (runC n cops { currentIndex := 0 }).currentIndex < n ∧
      ∃ q, currentQuoteC quotes (runC n cops { currentIndex := 0 }) = some q ∧
        q ∈ quotes) ∧
    (rfin.currentIndex < n ∧
      ∃ q, currentQuoteR quotes rfin = some q ∧ q ∈ quotes) := by
  have hc := runC_inv hn cops { currentIndex := 0 } (by simp)
    (show (0 : Int) < (n : Int) by exact_mod_cast hn)
  have hr := runR_inv hn hv (by simpa using hn) (by simp) hrun
  subst hq
  refine ⟨⟨hc.1, hc.2, currentQuoteC_mem hc.1 hc.2⟩, hr.1, currentQuoteR_mem hr.1⟩

/-- C1 witness: the three-quote sample collection, a concrete cyclic run and
a concrete random run. -/
theorem claim_C1_current_in_collection_witness :
    ([{ id := "a", text := "Q1", author := none },
      { id := "b", text := "Q2", author := none },
      { id := "c", text := "Q3", author := none }] : List QuoteItem).length = 3 ∧
    (0 : Nat) < 3 ∧
    ValidDraws 3 [ROp.next [1], ROp.prev] ∧
    runR 3 [ROp.next [1], ROp.prev] { currentIndex := 0, history := [] } =
      some { currentIndex := 0, history := [] } ∧
    ((0 ≤ (runC 3 [COp.next, COp.prev] { currentIndex := 0 }).currentIndex ∧
      (runC 3 [COp.next, COp.prev] { currentIndex := 0 }).currentIndex < 3 ∧
      ∃ q, currentQuoteC
          [{ id := "a", text := "Q1", author := none },
           { id := "b", text := "Q2", author := none },
           { id := "c", text := "Q3", author := none }]
          (runC 3 [COp.next, COp.prev] { currentIndex := 0 }) = some q ∧
        q ∈ [{ id := "a", text := "Q1", author := none },
             { id := "b", text := "Q2", author := none },
             { id := "c", text := "Q3", author := none }]) ∧
    ({ currentIndex := 0, history := [] } : RandState).currentIndex < 3 ∧
      ∃ q, currentQuoteR
          [{ id := "a", text := "Q1", author := none },
           { id := "b", text := "Q2", author := none },
           { id := "c", text := "Q3", author := none }]
          { currentIndex := 0, history := [] } = some q ∧
        q ∈ [{ id := "a", text := "Q1", author := none },
             { id := "b", text := "Q2", author := none },
             { id := "c", text := "Q3", author := none }]) :=
  ⟨rfl, by decide, by unfold ValidDraws; decide, rfl,
    claim_C1_current_in_collection 3
      [{ id := "a", text := "Q1", author := none },
       { id := "b", text := "Q2", author := none },
       { id := "c", text := "Q3", author := none }] rfl (by decide)
      [COp.next, COp.prev] [ROp.next [1], ROp.prev]
      (by unfold ValidDraws; decide) { currentIndex := 0, history := [] } rfl⟩

/-- C4: under the random-with-history policy, with more than one quote a
successful `next()` lands on an in-range index different from the
pre-advance one; with at most one quote the cursor stays at `0`. -/
theorem claim_C4_random_next_spec (n : Nat) (draws : List Nat)
    (s s2 : RandState) (hd : ∀ d ∈ draws, d < n)
    (h : nextQuoteR n draws s = some s2) :
    (1 < n → s2.currentIndex < n ∧ s2.currentIndex ≠ s.currentIndex) ∧
    (n ≤ 1 → s.currentIndex = 0 → s2.currentIndex = 0) := by
  constructor
  · intro hn
    obtain ⟨r, hp, rfl⟩ := nextQuoteR_some (by omega) h
    exact ⟨pickNewIndex_lt (by omega) hd hp, pickNewIndex_ne hn hp⟩
  · intro hn h0
    rcases Nat.eq_zero_or_pos n with hz | hpos
    · rw [nextQuoteR, if_pos hz] at h
      injection h with h
      rw [← h]
      exact h0
    · obtain ⟨r, hp, rfl⟩ := nextQuoteR_some hpos h
      rw [pickNewIndex, if_pos hn] at hp
      injection hp with hp
      simp [← hp]

/-- C4 witness: a two-quote collection with draw `1`, and a one-quote
collection. -/
theorem claim_C4_random_next_spec_witness :
    (∀ d ∈ [1], d < 2) ∧
    nextQuoteR 2 [1] { currentIndex := 0, history := [] } =
      some { currentIndex := 1, history := [0] } ∧
    ((1 < 2 → ({ currentIndex := 1, history := [0] } : RandState).currentIndex < 2 ∧
        ({ currentIndex := 1, history := [0] } : RandState).currentIndex ≠
          ({ currentIndex := 0, history := [] } : RandState).currentIndex) ∧
      (2 ≤ 1 → ({ currentIndex := 0, history := [] } : RandState).currentIndex = 0 →
        ({ currentIndex := 1, history := [0] } : RandState).currentIndex = 0)) ∧
    (∀ d ∈ ([] : List Nat), d < 1) ∧
    nextQuoteR 1 [] { currentIndex := 0, history := [] } =
      some { currentIndex := 0, history := [0] } ∧
    ((1 < 1 → ({ currentIndex := 0, history := [0] } : RandState).currentIndex < 1 ∧
        ({ currentIndex := 0, history := [0] } : RandState).currentIndex ≠
          ({ currentIndex := 0, history := [] } : RandState).currentIndex) ∧
      (1 ≤ 1 → ({ currentIndex := 0, history := [] } : RandState).currentIndex = 0 →
        ({ currentIndex := 0, history := [0] } : RandState).currentIndex = 0)) :=
  ⟨by decide, rfl,
    claim_C4_random_next_spec 2 [1] _ _ (by decide) rfl,
    by decide, rfl,
    claim_C4_random_next_spec 1 [] _ _ (by decide) rfl⟩

/-- C5: under the cyclic policy, `next()` called exactly `total()` times is a
round trip from any in-range start; on the three-quote sample the sequence
`next, next, next` visits indices `1, 2, 0`, and `position()` at index `1`
reports `2`. -/
theorem claim_C5_cyclic_round_trip (n : Nat) (hn : 0 < n) (i : Int)
    (h0 : 0 ≤ i) (h1 : i < n) :
    runC n (List.replicate n COp.next) { currentIndex := i } =
      { currentIndex := i } ∧
    runC 3 [COp.next] { currentIndex := 0 } = { currentIndex := 1 } ∧
    runC 3 [COp.next, COp.next] { currentIndex := 0 } = { currentIndex := 2 } ∧
    runC 3 [COp.next, COp.next, COp.next] { currentIndex := 0 } =
      { currentIndex := 0 } ∧
    currentPositionC 3 { currentIndex := 1 } = 2 := by
  refine ⟨?_, by decide, by decide, by decide, by decide⟩
  rw [runC_replicate_next hn n i h0 h1]
  congr 1
  rw [Int.add_emod_self]
  exact Int.emod_eq_of_lt h0 h1

/-- C5 witness: the round trip at `n = 3` starting from index `1`. -/
theorem claim_C5_cyclic_round_trip_witness :
    (0 : Nat) < 3 ∧ (0 : Int) ≤ 1 ∧ (1 : Int) < (3 : Nat) ∧
    (runC 3 (List.replicate 3 COp.next) { currentIndex := 1 } =
      { currentIndex := 1 } ∧
    runC 3 [COp.next] { currentIndex := 0 } = { currentIndex := 1 } ∧
    runC 3 [COp.next, COp.next] { currentIndex := 0 } = { currentIndex := 2 } ∧
    runC 3 [COp.next, COp.next, COp.next] { currentIndex := 0 } =
      { currentIndex := 0 } ∧
    currentPositionC 3 { currentIndex := 1 } = 2) :=
  ⟨by decide, by decide, by decide,
    claim_C5_cyclic_round_trip 3 (by decide) 1 (by decide) (by decide)⟩

/-- C6: under the random-with-history policy on a non-empty collection,
`prev()` immediately after a successful `next()` restores exactly the
pre-advance state; after that `next()` `canGoBack()` is true; when the
history was empty before the `next()`, the following `prev()` leaves
`canGoBack()` false and the original index; and `prev()` on an empty
history is a no-op. -/
theorem claim_C6_random_prev_inverse (n : Nat) (hn : 0 < n)
    (draws : List Nat) (s s2 : RandState)
    (h : nextQuoteR n draws s = some s2) :
    prevQuoteR s2 = s ∧
    canPrev s2 = true ∧
    (s.history = [] → canPrev (prevQuoteR s2) = false ∧
      (prevQuoteR s2).currentIndex = s.currentIndex) ∧
    (∀ t : RandState, t.history = [] → prevQuoteR t = t) := by
  obtain ⟨r, hp, rfl⟩ := nextQuoteR_some hn h
  refine ⟨rfl, by simp [canPrev], ?_, ?_⟩
  · intro hh
    exact ⟨by simp [prevQuoteR, canPrev, hh], rfl⟩
  · intro t ht
    unfold prevQuoteR
    rw [ht]

/-- C6 witness: two quotes, draw `1`, starting from the initial state. -/
theorem claim_C6_random_prev_inverse_witness :
    (0 : Nat) < 2 ∧
    nextQuoteR 2 [1] { currentIndex := 0, history := [] } =
      some { currentIndex := 1, history := [0] } ∧
    (prevQuoteR { currentIndex := 1, history := [0] } =
      { currentIndex := 0, history := [] } ∧
    canPrev { currentIndex := 1, history := [0] } = true ∧
    (({ currentIndex := 0, history := [] } : RandState).history = [] →
      canPrev (prevQuoteR { currentIndex := 1, history := [0] }) = false ∧
      (prevQuoteR { currentIndex := 1, history := [0] }).currentIndex =
        ({ currentIndex := 0, history := [] } : RandState).currentIndex) ∧
    (∀ t : RandState, t.history = [] → prevQuoteR t = t)) :=
  ⟨by decide, rfl,
    claim_C6_random_prev_inverse 2 (by decide) [1]
      { currentIndex := 0, history := [] }
      { currentIndex := 1, history := [0] } rfl⟩

/-! ## Theme claims -/

/-- C2: three-tier precedence of the startup theme resolution — a valid
stored value wins regardless of the ambient signal; otherwise the ambient
"prefers dark" signal decides; otherwise light. -/
theorem claim_C2_theme_precedence (amb : Option Bool) (saved : Option String)
    (hsaved : ¬(saved = some "dark" ∨ saved = some "light")) :
    resolveInitialTheme
        { localStorageItem := some (some "dark"), prefersDark := amb } =
      Except.ok "dark" ∧
    resolveInitialTheme
        { localStorageItem := some (some "light"), prefersDark := amb } =
      Except.ok "light" ∧
    resolveInitialTheme
        { localStorageItem := some saved, prefersDark := some true } =
      Except.ok "dark" ∧
    resolveInitialTheme
        { localStorageItem := some none, prefersDark := none } =
      Except.ok "light" ∧
    resolveInitialTheme
        { localStorageItem := some none, prefersDark := some false } =
      Except.ok "light" := by
  have hx : (saved == some "dark" || saved == some "light") = false := by
    simp only [Bool.or_eq_false_iff, beq_eq_false_iff_ne]
    exact ⟨fun h => hsaved (Or.inl h), fun h => hsaved (Or.inr h)⟩
  refine ⟨rfl, rfl, ?_, rfl, rfl⟩
  simp [resolveInitialTheme, resolveInitialIsDark, hx, themeName, Except.map]

/-- C2 witness: an invalid stored value falls through to the ambient
signal. -/
theorem claim_C2_theme_precedence_witness :
    (¬(some "sepia" = some "dark" ∨ some "sepia" = some "light")) ∧
    (resolveInitialTheme
        { localStorageItem := some (some "dark"), prefersDark := some false } =
      Except.ok "dark" ∧
    resolveInitialTheme
        { localStorageItem := some (some "light"), prefersDark := some false } =
      Except.ok "light" ∧
    resolveInitialTheme
        { localStorageItem := some (some "sepia"), prefersDark := some true } =
      Except.ok "dark" ∧
    resolveInitialTheme
        { localStorageItem := some none, prefersDark := none } =
      Except.ok "light" ∧
    resolveInitialTheme
        { localStorageItem := some none, prefersDark := some false } =
      Except.ok "light") :=
  ⟨by decide, claim_C2_theme_precedence (some false) (some "sepia") (by decide)⟩

/-- With the persistence layer present, the startup resolution returns
normally, with the value dictated by the stored-first precedence. -/
theorem resolveInitialIsDark_ok {env : ThemeEnv} {saved : Option String}
    (henv : env.localStorageItem = some saved) :
    resolveInitialIsDark env =
      if saved == some "dark" || saved == some "light"
        then Except.ok (saved == some "dark")
        else Except.ok (env.prefersDark.getD false) := by
  rw [resolveInitialIsDark, henv]

/-- C3 counterexample: in an environment without a persistence layer the
startup resolution throws (the `localStorage.getItem` call is unguarded),
contradicting the claim that resolution completes normally whenever
`localStorage` and/or `matchMedia` are absent. -/
theorem claim_C3_counterexample :
    resolveInitialTheme { localStorageItem := none, prefersDark := some true } =
      Except.error () :=
  rfl

/-- C3 (amended): when the persistence layer is available, resolution never
throws, and an absent ambient signal is treated as "no preference" (falling
through to light when the stored value is invalid or missing); when the
persistence layer is absent, resolution throws. -/
theorem claim_C3_amended (saved : Option String) (amb : Option Bool)
    (hsaved : ¬(saved = some "dark" ∨ saved = some "light")) :
    (resolveInitialTheme
        { localStorageItem := some saved, prefersDark := amb }).isOk = true ∧
    resolveInitialTheme
        { localStorageItem := some saved, prefersDark := none } =
      Except.ok "light" ∧
    resolveInitialTheme { localStorageItem := none, prefersDark := amb } =
      Except.error () := by
  have hx : (saved == some "dark" || saved == some "light") = false := by
    simp only [Bool.or_eq_false_iff, beq_eq_false_iff_ne]
    exact ⟨fun h => hsaved (Or.inl h), fun h => hsaved (Or.inr h)⟩
  refine ⟨?_, ?_, rfl⟩
  · rw [resolveInitialTheme, resolveInitialIsDark_ok rfl]
    split <;> rfl
  · simp [resolveInitialTheme, resolveInitialIsDark, hx, themeName, Except.map]

/-- C3 amended witness: a present store with no saved value, ambient signal
available. -/
theorem claim_C3_amended_witness :
    (¬((none : Option String) = some "dark" ∨ (none : Option String) = some "light")) ∧
    ((resolveInitialTheme
        { localStorageItem := some none, prefersDark := some true }).isOk = true ∧
    resolveInitialTheme
        { localStorageItem := some none, prefersDark := none } =
      Except.ok "light" ∧
    resolveInitialTheme { localStorageItem := none, prefersDark := some true } =
      Except.error ()) :=
  ⟨by decide, claim_C3_amended none (some true) (by decide)⟩

/-- C7: `toggleTheme` twice restores the theme value and performs exactly
two writes to each sink; each `setTheme` performs exactly one write to
persisted storage and one to the observable attribute; repeating `setTheme`
with the same value leaves the same observable state as a single call. -/
theorem claim_C7_setTheme_effects (s : ThemeState) (v : Bool) :
    (toggleTheme (toggleTheme s)).isDark = s.isDark ∧
    (toggleTheme (toggleTheme s)).dom.dataTheme = some (themeName s.isDark) ∧
    (toggleTheme (toggleTheme s)).dom.storageWrites = s.dom.storageWrites + 2 ∧
    (toggleTheme (toggleTheme s)).dom.attrWrites = s.dom.attrWrites + 2 ∧
    (setTheme v s).dom.storageWrites = s.dom.storageWrites + 1 ∧
    (setTheme v s).dom.attrWrites = s.dom.attrWrites + 1 ∧
    (setTheme v (setTheme v s)).isDark = (setTheme v s).isDark ∧
    (setTheme v (setTheme v s)).dom.dataTheme = (setTheme v s).dom.dataTheme ∧
    (setTheme v (setTheme v s)).dom.storedTheme = (setTheme v s).dom.storedTheme := by
  simp [toggleTheme, setTheme, applyTheme, Bool.not_not]

/-- C10: the `onMounted` hook is not side-effect free — whatever theme it
resolves (stored, ambient-derived, or the light default), it performs
exactly one persisted-storage write and one attribute write of that value;
as a consequence every subsequent startup takes the stored-value branch,
regardless of the ambient signal at that later startup. -/
theorem claim_C10_mount_persists_resolution (env : ThemeEnv)
    (saved : Option String) (henv : env.localStorageItem = some saved)
    (d : ThemeDom) (dark : Bool) (dom2 : ThemeDom)
    (h : mountTheme env d = Except.ok (dark, dom2)) :
    dom2.storageWrites = d.storageWrites + 1 ∧
    dom2.attrWrites = d.attrWrites + 1 ∧
    dom2.storedTheme = some (themeName dark) ∧
    dom2.dataTheme = some (themeName dark) ∧
    ∀ amb : Option Bool,
      resolveInitialTheme
          { localStorageItem := some dom2.storedTheme, prefersDark := amb } =
        Except.ok (themeName dark) := by
  rw [mountTheme, resolveInitialIsDark_ok henv] at h
  split at h
  all_goals
    simp only [Except.map] at h
    injection h with h
    injection h with h1 h2
    rw [h1] at h2
    subst h2
    refine ⟨rfl, rfl, rfl, rfl, ?_⟩
    intro amb
    cases dark <;> rfl

/-- C10 witness: no stored value, ambient prefers dark; mounting resolves
dark, persists it, and later startups read it back regardless of the
ambient signal. -/
theorem claim_C10_mount_persists_resolution_witness :
    ({ localStorageItem := some none, prefersDark := some true } : ThemeEnv).localStorageItem =
      some none ∧
    mountTheme { localStorageItem := some none, prefersDark := some true }
        { dataTheme := none, storedTheme := none, attrWrites := 0, storageWrites := 0 } =
      Except.ok (true,
        { dataTheme := some "dark", storedTheme := some "dark",
          attrWrites := 1, storageWrites := 1 }) ∧
    ((1 : Nat) = 0 + 1 ∧ (1 : Nat) = 0 + 1 ∧
      (some "dark" : Option String) = some (themeName true) ∧
      (some "dark" : Option String) = some (themeName true) ∧
      ∀ amb : Option Bool,
        resolveInitialTheme
            { localStorageItem := some (some "dark"), prefersDark := amb } =
          Except.ok (themeName true)) :=
  ⟨rfl, rfl,
    claim_C10_mount_persists_resolution
      { localStorageItem := some none, prefersDark := some true } none rfl
      { dataTheme := none, storedTheme := none, attrWrites := 0, storageWrites := 0 }
      true
      { dataTheme := some "dark", storedTheme := some "dark",
        attrWrites := 1, storageWrites := 1 } rfl⟩

/-! ## Preload claim -/

/-- C9: evaluation of the preload wiring at schema-conforming inputs — the
watcher reads `(record as any).authorImage`, a property the `QuoteItem`
schema does not declare (the author picture lives at `author.photo`), so
over any session no image fetch is ever issued and the de-duplicating set
stays empty. -/
theorem claim_C9_preload_never_fetches (quotes : List QuoteItem)
    (events : List Nat) :
    (runSession quotes events { preloaded := [], fetches := [] }).fetches = [] ∧
    (runSession quotes events { preloaded := [], fetches := [] }).preloaded = [] := by
  have hpre : ∀ (o : Option QuoteItem) (st : PreloadState),
      preloadImage (o.bind anyAuthorImage) st = st := by
    intro o st
    cases o <;> rfl
  have hw : ∀ (i : Nat) (st : PreloadState), watchCurrentIndex quotes i st = st := by
    intro i st
    rw [watchCurrentIndex]
    split
    · rfl
    · show preloadImage ((quotes[(i + 1) % quotes.length]?).bind anyAuthorImage)
        (preloadImage ((quotes[i]?).bind anyAuthorImage) st) = st
      rw [hpre, hpre]
  have hrun : ∀ (evs : List Nat) (st : PreloadState),
      runSession quotes evs st = st := by
    intro evs
    induction evs with
    | nil => intro st; rfl
    | cons e evs ih =>
      intro st
      simp only [runSession]
      rw [hw]
      exact ih st
  rw [hrun]
  exact ⟨rfl, rfl⟩

/-! ## Sanitisation lemmas -/

/-- A successful `expectChar` consumed exactly the head character. -/
theorem expectChar_some {p : Char → Bool} {k : List Char → Option (List Char)}
    {l r : List Char} (h : expectChar p k l = some r) :
    ∃ c rest, l = c :: rest ∧ p c = true ∧ k rest = some r := by
  cases l with
  | nil => simp [expectChar] at h
  | cons c rest =>
    simp only [expectChar] at h
    split at h
    · exact ⟨c, rest, rfl, by assumption, h⟩
    · exact absurd h (by simp)

/-- `expectChar` on a matching head steps to the continuation. -/
theorem expectChar_cons_pos {p : Char → Bool} {k : List Char → Option (List Char)}
    {c : Char} {cs : List Char} (h : p c = true) :
    expectChar p k (c :: cs) = k cs := by
  simp [expectChar, h]

/-- `expectChar` on a non-matching head fails. -/
theorem expectChar_cons_neg {p : Char → Bool} {k : List Char → Option (List Char)}
    {c : Char} {cs : List Char} (h : p c = false) :
    expectChar p k (c :: cs) = none := by
  simp [expectChar, h]

/-- `skipWs` returns a suffix of its input. -/
theorem skipWs_suffix (l : List Char) : skipWs l <:+ l := by
  induction l with
  | nil => exact List.suffix_refl _
  | cons c cs ih =>
    rw [skipWs]
    split
    · exact ih.trans (List.suffix_cons c cs)
    · exact List.suffix_refl _

/-- Skipping whitespace drops a leading all-whitespace run. -/
theorem skipWs_append {ws : List Char} (h : ∀ c ∈ ws, isJsSpace c = true)
    (t : List Char) : skipWs (ws ++ t) = skipWs t := by
  induction ws with
  | nil => rfl
  | cons c cs ih =>
    rw [List.cons_append, skipWs, if_pos (h c (List.mem_cons_self _ _))]
    exact ih fun x hx => h x (List.mem_cons_of_mem _ hx)

/-- `skipWs` stops at a non-whitespace head. -/
theorem skipWs_cons_neg {c : Char} {cs : List Char} (h : isJsSpace c = false) :
    skipWs (c :: cs) = c :: cs := by
  rw [skipWs]
  simp [h]

/-- A successful `&gt;` match consumed exactly four characters and returns a
suffix. -/
theorem matchEntGt_some {l r : List Char} (h : matchEntGt l = some r) :
    r <:+ l ∧ r.length + 4 = l.length := by
  obtain ⟨c1, l1, rfl, hp1, h⟩ := expectChar_some h
  obtain ⟨c2, l2, rfl, hp2, h⟩ := expectChar_some h
  obtain ⟨c3, l3, rfl, hp3, h⟩ := expectChar_some h
  obtain ⟨c4, l4, rfl, hp4, h⟩ := expectChar_some h
  injection h with h
  subst h
  refine ⟨?_, by simp⟩
  exact (((List.suffix_cons c4 l4).trans (List.suffix_cons c3 _)).trans
    (List.suffix_cons c2 _)).trans (List.suffix_cons c1 _)

/-- A successful entity-tail match returns a strictly shorter suffix. -/
theorem matchEntClose_some {l r : List Char} (h : matchEntClose l = some r) :
    r <:+ l ∧ r.length + 4 ≤ l.length := by
  rw [matchEntClose] at h
  split at h
  · exact absurd h (by simp)
  · rename_i c rest hs
    have hsuf : c :: rest <:+ l := hs ▸ skipWs_suffix l
    have hlen : rest.length + 1 ≤ l.length := by
      have hx := hsuf.length_le
      simpa using hx
    split at h
    · obtain ⟨h1, h2⟩ := matchEntGt_some h
      exact ⟨h1.trans ((List.suffix_cons c rest).trans hsuf), by omega⟩
    · obtain ⟨h1, h2⟩ := matchEntGt_some h
      refine ⟨h1.trans hsuf, ?_⟩
      simp only [List.length_cons] at h2
      omega

/-- A successful `/&lt;br\s*\/?&gt;/` match returns a strictly shorter
suffix. -/
theorem matchBrEnt_some {l r : List Char} (h : matchBrEnt l = some r) :
    r <:+ l ∧ r.length < l.length := by
  obtain ⟨c1, l1, rfl, hp1, h⟩ := expectChar_some h
  obtain ⟨c2, l2, rfl, hp2, h⟩ := expectChar_some h
  obtain ⟨c3, l3, rfl, hp3, h⟩ := expectChar_some h
  obtain ⟨c4, l4, rfl, hp4, h⟩ := expectChar_some h
  obtain ⟨c5, l5, rfl, hp5, h⟩ := expectChar_some h
  obtain ⟨c6, l6, rfl, hp6, h⟩ := expectChar_some h
  obtain ⟨h1, h2⟩ := matchEntClose_some h
  constructor
  · refine h1.trans ?_
    exact ((((((List.suffix_cons c6 l6).trans (List.suffix_cons c5 _)).trans
      (List.suffix_cons c4 _)).trans (List.suffix_cons c3 _)).trans
      (List.suffix_cons c2 _)).trans (List.suffix_cons c1 _))
  · simp only [List.length_cons]
    omega

/-- A successful `>` tail match consumed exactly one character. -/
theorem matchTagEnd_some {l r : List Char} (h : matchTagEnd l = some r) :
    r <:+ l ∧ r.length + 1 = l.length := by
  obtain ⟨c1, l1, rfl, hp1, h⟩ := expectChar_some h
  injection h with h
  subst h
  exact ⟨List.suffix_cons c1 l1, by simp⟩

/-- A successful tag-tail match returns a strictly shorter suffix. -/
theorem matchTagClose_some {l r : List Char} (h : matchTagClose l = some r) :
    r <:+ l ∧ r.length + 1 ≤ l.length := by
  rw [matchTagClose] at h
  split at h
  · exact absurd h (by simp)
  · rename_i c rest hs
    have hsuf : c :: rest <:+ l := hs ▸ skipWs_suffix l
    have hlen : rest.length + 1 ≤ l.length := by
      have hx := hsuf.length_le
      simpa using hx
    split at h
    · obtain ⟨h1, h2⟩ := matchTagEnd_some h
      exact ⟨h1.trans ((List.suffix_cons c rest).trans hsuf), by omega⟩
    · obtain ⟨h1, h2⟩ := matchTagEnd_some h
      refine ⟨h1.trans hsuf, ?_⟩
      simp only [List.length_cons] at h2
      omega

/-- A successful `/<br\s*\/?>/` match returns a strictly shorter suffix. -/
theorem matchBrTag_some {l r : List Char} (h : matchBrTag l = some r) :
    r <:+ l ∧ r.length < l.length := by
  obtain ⟨c1, l1, rfl, hp1, h⟩ := expectChar_some h
  obtain ⟨c2, l2, rfl, hp2, h⟩ := expectChar_some h
  obtain ⟨c3, l3, rfl, hp3, h⟩ := expectChar_some h
  obtain ⟨h1, h2⟩ := matchTagClose_some h
  constructor
  · exact h1.trans (((List.suffix_cons c3 l3).trans (List.suffix_cons c2 _)).trans
      (List.suffix_cons c1 _))
  · simp only [List.length_cons]
    omega

/-- The fuelled entity scanner does not depend on the fuel once it covers the
input length. -/
theorem reEnableBrF_irrel :
    ∀ (f1 : Nat) (f2 : Nat) (l : List Char), l.length ≤ f1 → l.length ≤ f2 →
      reEnableBrF f1 l = reEnableBrF f2 l := by
  intro f1
  induction f1 with
  | zero =>
    intro f2 l h1 h2
    have hl : l = [] := List.eq_nil_of_length_eq_zero (by omega)
    subst hl
    cases f2 <;> rfl
  | succ g1 ih =>
    intro f2 l h1 h2
    cases l with
    | nil => cases f2 <;> rfl
    | cons c cs =>
      cases f2 with
      | zero => simp at h2
      | succ g2 =>
        simp only [reEnableBrF]
        cases hm : matchBrEnt (c :: cs) with
        | some rest =>
          have hr := (matchBrEnt_some hm).2
          simp only [List.length_cons] at hr h1 h2
          have he := ih g2 rest (by omega) (by omega)
          simp [he]
        | none =>
          simp only [List.length_cons] at h1 h2
          have he := ih g2 cs (by omega) (by omega)
          simp [he]

/-- Scan equation for `reEnableBr`: replace a head match, else copy one
character. -/
theorem reEnableBr_eq (l : List Char) :
    reEnableBr l =
      match matchBrEnt l with
      | some rest => '<' :: 'b' :: 'r' :: '>' :: reEnableBr rest
      | none =>
        match l with
        | [] => []
        | c :: cs => c :: reEnableBr cs := by
  cases l with
  | nil => rfl
  | cons c cs =>
    show reEnableBrF (cs.length + 1) (c :: cs) = _
    simp only [reEnableBrF]
    cases hm : matchBrEnt (c :: cs) with
    | some rest =>
      have hr := (matchBrEnt_some hm).2
      simp only [List.length_cons] at hr
      have he := reEnableBrF_irrel cs.length rest.length rest (by omega) le_rfl
      simp [he, reEnableBr]
    | none => simp [reEnableBr]

/-- Head-match step of `reEnableBr`. -/
theorem reEnableBr_some {l rest : List Char} (h : matchBrEnt l = some rest) :
    reEnableBr l = '<' :: 'b' :: 'r' :: '>' :: reEnableBr rest := by
  rw [reEnableBr_eq, h]

/-- Copy step of `reEnableBr`. -/
theorem reEnableBr_none {c : Char} {cs : List Char}
    (h : matchBrEnt (c :: cs) = none) :
    reEnableBr (c :: cs) = c :: reEnableBr cs := by
  rw [reEnableBr_eq, h]

/-- The fuelled tag scanner does not depend on the fuel once it covers the
input length. -/
theorem toPlainTextF_irrel :
    ∀ (f1 : Nat) (f2 : Nat) (l : List Char), l.length ≤ f1 → l.length ≤ f2 →
      toPlainTextF f1 l = toPlainTextF f2 l := by
  intro f1
  induction f1 with
  | zero =>
    intro f2 l h1 h2
    have hl : l = [] := List.eq_nil_of_length_eq_zero (by omega)
    subst hl
    cases f2 <;> rfl
  | succ g1 ih =>
    intro f2 l h1 h2
    cases l with
    | nil => cases f2 <;> rfl
    | cons c cs =>
      cases f2 with
      | zero => simp at h2
      | succ g2 =>
        simp only [toPlainTextF]
        cases hm : matchBrTag (c :: cs) with
        | some rest =>
          have hr := (matchBrTag_some hm).2
          simp only [List.length_cons] at hr h1 h2
          have he := ih g2 rest (by omega) (by omega)
          simp [he]
        | none =>
          simp only [List.length_cons] at h1 h2
          have he := ih g2 cs (by omega) (by omega)
          simp [he]

/-- Scan equation for `toPlainTextL`. -/
theorem toPlainTextL_eq (l : List Char) :
    toPlainTextL l =
      match matchBrTag l with
      | some rest => Char.ofNat 10 :: toPlainTextL rest
      | none =>
        match l with
        | [] => []
        | c :: cs => c :: toPlainTextL cs := by
  cases l with
  | nil => rfl
  | cons c cs =>
    show toPlainTextF (cs.length + 1) (c :: cs) = _
    simp only [toPlainTextF]
    cases hm : matchBrTag (c :: cs) with
    | some rest =>
      have hr := (matchBrTag_some hm).2
      simp only [List.length_cons] at hr
      have he := toPlainTextF_irrel cs.length rest.length rest (by omega) le_rfl
      simp [he, toPlainTextL]
    | none => simp [toPlainTextL]

/-- Head-match step of `toPlainTextL`. -/
theorem toPlainTextL_some {l rest : List Char} (h : matchBrTag l = some rest) :
    toPlainTextL l = Char.ofNat 10 :: toPlainTextL rest := by
  rw [toPlainTextL_eq, h]

/-- Copy step of `toPlainTextL`. -/
theorem toPlainTextL_none {c : Char} {cs : List Char}
    (h : matchBrTag (c :: cs) = none) :
    toPlainTextL (c :: cs) = c :: toPlainTextL cs := by
  rw [toPlainTextL_eq, h]

/-- `replaceAllChar` distributes over concatenation. -/
theorem replaceAllChar_append (pat : Char) (repl : List Char)
    (l1 l2 : List Char) :
    replaceAllChar pat repl (l1 ++ l2) =
      replaceAllChar pat repl l1 ++ replaceAllChar pat repl l2 := by
  simp [replaceAllChar]

/-- `escapeHtml` distributes over concatenation. -/
theorem escapeHtmlL_append (l1 l2 : List Char) :
    escapeHtmlL (l1 ++ l2) = escapeHtmlL l1 ++ escapeHtmlL l2 := by
  simp [escapeHtmlL, replaceAllChar_append]

/-- Characters of a `replaceAllChar` output come from the replacement or the
input. -/
theorem mem_replaceAllChar {x pat : Char} {repl l : List Char}
    (h : x ∈ replaceAllChar pat repl l) : x ∈ repl ∨ x ∈ l := by
  simp only [replaceAllChar, List.mem_flatMap] at h
  obtain ⟨c, hc, hx⟩ := h
  by_cases hcp : c = pat
  · rw [if_pos hcp] at hx
    exact Or.inl hx
  · rw [if_neg hcp] at hx
    simp only [List.mem_singleton] at hx
    subst hx
    exact Or.inr hc

/-- `replaceAllChar` eliminates its pattern when the replacement avoids it. -/
theorem not_mem_replaceAllChar_self {pat : Char} {repl : List Char}
    (h : pat ∉ repl) (l : List Char) : pat ∉ replaceAllChar pat repl l := by
  intro hx
  simp only [replaceAllChar, List.mem_flatMap] at hx
  obtain ⟨c, hc, hx⟩ := hx
  by_cases hcp : c = pat
  · rw [if_pos hcp] at hx
    exact h hx
  · rw [if_neg hcp] at hx
    simp only [List.mem_singleton] at hx
    exact hcp hx.symm

/-- A character absent from input and replacement is absent from the
output. -/
theorem not_mem_replaceAllChar {x pat : Char} {repl : List Char}
    (hr : x ∉ repl) {l : List Char} (hl : x ∉ l) :
    x ∉ replaceAllChar pat repl l := fun h =>
  (mem_replaceAllChar h).elim hr hl

/-- The escaped text contains no `<`. -/
theorem not_mem_escapeHtmlL_lt (l : List Char) : '<' ∉ escapeHtmlL l := by
  unfold escapeHtmlL
  apply not_mem_replaceAllChar (by decide)
  apply not_mem_replaceAllChar (by decide)
  apply not_mem_replaceAllChar (by decide)
  exact not_mem_replaceAllChar_self (by decide) _

/-- The escaped text contains no `>`. -/
theorem not_mem_escapeHtmlL_gt (l : List Char) : '>' ∉ escapeHtmlL l := by
  unfold escapeHtmlL
  apply not_mem_replaceAllChar (by decide)
  apply not_mem_replaceAllChar (by decide)
  exact not_mem_replaceAllChar_self (by decide) _

/-- `reEnableBr` output over markup-free input is built from `<br>` blocks
and markup-free characters. -/
theorem brSafe_reEnableBr :
    ∀ (n : Nat) (l : List Char), l.length ≤ n →
      (∀ c ∈ l, c ≠ '<' ∧ c ≠ '>') → BrSafe (reEnableBr l) := by
  intro n
  induction n with
  | zero =>
    intro l hl _
    have hn : l = [] := List.eq_nil_of_length_eq_zero (by omega)
    subst hn
    exact BrSafe.nil
  | succ n ih =>
    intro l hl h
    cases l with
    | nil => exact BrSafe.nil
    | cons c cs =>
      cases hm : matchBrEnt (c :: cs) with
      | some rest =>
        rw [reEnableBr_some hm]
        obtain ⟨hsuf, hlen⟩ := matchBrEnt_some hm
        simp only [List.length_cons] at hlen hl
        refine BrSafe.br (ih rest (by omega) ?_)
        intro x hx
        exact h x (hsuf.subset hx)
      | none =>
        rw [reEnableBr_none hm]
        simp only [List.length_cons] at hl
        exact BrSafe.chr (h c (List.mem_cons_self _ _)).1
          (h c (List.mem_cons_self _ _)).2
          (ih cs (by omega) fun x hx => h x (List.mem_cons_of_mem _ hx))

/-- JS whitespace is none of the escaped characters, nor a slash. -/
theorem isJsSpace_not_special {c : Char} (h : isJsSpace c = true) :
    c ≠ '&' ∧ c ≠ '<' ∧ c ≠ '>' ∧ c ≠ Char.ofNat 34 ∧ c ≠ Char.ofNat 39 := by
  refine ⟨?_, ?_, ?_, ?_, ?_⟩ <;> (rintro rfl; revert h; decide)

/-- `escapeHtml` leaves a character outside its five patterns unchanged. -/
theorem escapeHtmlL_single {c : Char} (h1 : c ≠ '&') (h2 : c ≠ '<')
    (h3 : c ≠ '>') (h4 : c ≠ Char.ofNat 34) (h5 : c ≠ Char.ofNat 39) :
    escapeHtmlL [c] = [c] := by
  simp [escapeHtmlL, replaceAllChar, h1, h2, h3, h4, h5]

/-- `escapeHtml` leaves a whitespace run unchanged. -/
theorem escapeHtmlL_ws {ws : List Char} (h : ∀ c ∈ ws, isJsSpace c = true) :
    escapeHtmlL ws = ws := by
  induction ws with
  | nil => rfl
  | cons c cs ih =>
    obtain ⟨u1, u2, u3, u4, u5⟩ := isJsSpace_not_special (h c (List.mem_cons_self _ _))
    rw [show (c :: cs : List Char) = [c] ++ cs from rfl, escapeHtmlL_append,
      escapeHtmlL_single u1 u2 u3 u4 u5,
      ih fun x hx => h x (List.mem_cons_of_mem _ hx)]

/-- The escaped form of a complete line-break marker matches the
`/&lt;br\s*\/?&gt;/gi` pattern at the head, consuming exactly itself. -/
theorem matchBrEnt_escMarker {m : List Char} (hm : IsBrMarker m)
    (t : List Char) : matchBrEnt (escapeHtmlL m ++ t) = some t := by
  obtain ⟨b, r, ws, sl, hb, hr, hws, hsl, rfl⟩ := hm
  have eb : escapeHtmlL [b] = [b] := by rcases hb with rfl | rfl <;> rfl
  have er : escapeHtmlL [r] = [r] := by rcases hr with rfl | rfl <;> rfl
  have es : escapeHtmlL sl = sl := by rcases hsl with rfl | rfl <;> rfl
  have hesc : escapeHtmlL ('<' :: b :: r :: (ws ++ sl ++ [ '>' ])) =
      '&' :: 'l' :: 't' :: ';' :: b :: r ::
        (ws ++ (sl ++ [ '&', 'g', 't', ';' ])) := by
    rw [show ('<' :: b :: r :: (ws ++ sl ++ [ '>' ]) : List Char) =
        [ '<' ] ++ [b] ++ [r] ++ ws ++ sl ++ [ '>' ] by simp,
      escapeHtmlL_append, escapeHtmlL_append, escapeHtmlL_append,
      escapeHtmlL_append, escapeHtmlL_append, escapeHtmlL_ws hws, eb, er, es,
      show escapeHtmlL [ '<' ] = [ '&', 'l', 't', ';' ] from rfl,
      show escapeHtmlL [ '>' ] = [ '&', 'g', 't', ';' ] from rfl]
    simp
  rw [hesc]
  simp only [List.cons_append]
  unfold matchBrEnt
  rw [expectChar_cons_pos (by decide), expectChar_cons_pos (by decide),
    expectChar_cons_pos (by decide), expectChar_cons_pos (by decide),
    expectChar_cons_pos (by rcases hb with rfl | rfl <;> decide),
    expectChar_cons_pos (by rcases hr with rfl | rfl <;> decide)]
  unfold matchEntClose
  rw [List.append_assoc, skipWs_append hws]
  rcases hsl with rfl | rfl <;> rfl

/-- A complete line-break marker matches the `/<br\s*\/?>/gi` pattern at the
head, consuming exactly itself. -/
theorem matchBrTag_marker {m : List Char} (hm : IsBrMarker m)
    (post : List Char) : matchBrTag (m ++ post) = some post := by
  obtain ⟨b, r, ws, sl, hb, hr, hws, hsl, rfl⟩ := hm
  simp only [List.cons_append, List.append_assoc, List.singleton_append]
  unfold matchBrTag
  rw [expectChar_cons_pos (by decide),
    expectChar_cons_pos (by rcases hb with rfl | rfl <;> decide),
    expectChar_cons_pos (by rcases hr with rfl | rfl <;> decide)]
  unfold matchTagClose
  rw [skipWs_append hws]
  rcases hsl with rfl | rfl <;> rfl

/-- The entity pattern cannot match at a head other than `&`. -/
theorem matchBrEnt_cons_none {c : Char} {cs : List Char} (h : c ≠ '&') :
    matchBrEnt (c :: cs) = none := by
  unfold matchBrEnt
  exact expectChar_cons_neg (by simp [h])

/-- The tag pattern cannot match at a head other than `<`. -/
theorem matchBrTag_cons_none {c : Char} {cs : List Char} (h : c ≠ '<') :
    matchBrTag (c :: cs) = none := by
  unfold matchBrTag
  exact expectChar_cons_neg (by simp [h])

/-- `reEnableBr` copies the escaped block of one non-`<` character
verbatim. -/
theorem reEnableBr_block {c : Char} (hc : c ≠ '<') (t : List Char) :
    reEnableBr (escapeHtmlL [c] ++ t) = escapeHtmlL [c] ++ reEnableBr t := by
  by_cases h1 : c = '&'
  · subst h1
    have s1 : matchBrEnt ('&' :: 'a' :: 'm' :: 'p' :: ';' :: t) = none := rfl
    have s2 : matchBrEnt ('a' :: 'm' :: 'p' :: ';' :: t) = none := rfl
    have s3 : matchBrEnt ('m' :: 'p' :: ';' :: t) = none := rfl
    have s4 : matchBrEnt ('p' :: ';' :: t) = none := rfl
    have s5 : matchBrEnt (';' :: t) = none := rfl
    show reEnableBr ('&' :: 'a' :: 'm' :: 'p' :: ';' :: t) =
      '&' :: 'a' :: 'm' :: 'p' :: ';' :: reEnableBr t
    rw [reEnableBr_none s1, reEnableBr_none s2, reEnableBr_none s3,
      reEnableBr_none s4, reEnableBr_none s5]
  by_cases h2 : c = '>'
  · subst h2
    have s1 : matchBrEnt ('&' :: 'g' :: 't' :: ';' :: t) = none := rfl
    have s2 : matchBrEnt ('g' :: 't' :: ';' :: t) = none := rfl
    have s3 : matchBrEnt ('t' :: ';' :: t) = none := rfl
    have s4 : matchBrEnt (';' :: t) = none := rfl
    show reEnableBr ('&' :: 'g' :: 't' :: ';' :: t) =
      '&' :: 'g' :: 't' :: ';' :: reEnableBr t
    rw [reEnableBr_none s1, reEnableBr_none s2, reEnableBr_none s3,
      reEnableBr_none s4]
  by_cases h3 : c = Char.ofNat 34
  · subst h3
    have s1 : matchBrEnt ('&' :: 'q' :: 'u' :: 'o' :: 't' :: ';' :: t) = none := rfl
    have s2 : matchBrEnt ('q' :: 'u' :: 'o' :: 't' :: ';' :: t) = none := rfl
    have s3 : matchBrEnt ('u' :: 'o' :: 't' :: ';' :: t) = none := rfl
    have s4 : matchBrEnt ('o' :: 't' :: ';' :: t) = none := rfl
    have s5 : matchBrEnt ('t' :: ';' :: t) = none := rfl
    have s6 : matchBrEnt (';' :: t) = none := rfl
    show reEnableBr ('&' :: 'q' :: 'u' :: 'o' :: 't' :: ';' :: t) =
      '&' :: 'q' :: 'u' :: 'o' :: 't' :: ';' :: reEnableBr t
    rw [reEnableBr_none s1, reEnableBr_none s2, reEnableBr_none s3,
      reEnableBr_none s4, reEnableBr_none s5, reEnableBr_none s6]
  by_cases h4 : c = Char.ofNat 39
  · subst h4
    have s1 : matchBrEnt ('&' :: '#' :: '0' :: '3' :: '9' :: ';' :: t) = none := rfl
    have s2 : matchBrEnt ('#' :: '0' :: '3' :: '9' :: ';' :: t) = none := rfl
    have s3 : matchBrEnt ('0' :: '3' :: '9' :: ';' :: t) = none := rfl
    have s4 : matchBrEnt ('3' :: '9' :: ';' :: t) = none := rfl
    have s5 : matchBrEnt ('9' :: ';' :: t) = none := rfl
    have s6 : matchBrEnt (';' :: t) = none := rfl
    show reEnableBr ('&' :: '#' :: '0' :: '3' :: '9' :: ';' :: t) =
      '&' :: '#' :: '0' :: '3' :: '9' :: ';' :: reEnableBr t
    rw [reEnableBr_none s1, reEnableBr_none s2, reEnableBr_none s3,
      reEnableBr_none s4, reEnableBr_none s5, reEnableBr_none s6]
  · rw [escapeHtmlL_single h1 hc h2 h3 h4]
    rw [List.singleton_append, reEnableBr_none (matchBrEnt_cons_none h1)]
    rfl

/-- `reEnableBr` copies the escaped form of `<`-free text verbatim. -/
theorem reEnableBr_escPrefix :
    ∀ (pre : List Char), (∀ c ∈ pre, c ≠ '<') → ∀ (t : List Char),
      reEnableBr (escapeHtmlL pre ++ t) = escapeHtmlL pre ++ reEnableBr t := by
  intro pre
  induction pre with
  | nil => intro _ t; rfl
  | cons c cs ih =>
    intro h t
    rw [show (c :: cs : List Char) = [c] ++ cs from rfl, escapeHtmlL_append,
      List.append_assoc, reEnableBr_block (h c (List.mem_cons_self _ _)),
      ih (fun x hx => h x (List.mem_cons_of_mem _ hx)) t, List.append_assoc]

/-- `toPlainText` copies `<`-free text verbatim. -/
theorem toPlainTextL_prefix :
    ∀ (pre : List Char), (∀ c ∈ pre, c ≠ '<') → ∀ (t : List Char),
      toPlainTextL (pre ++ t) = pre ++ toPlainTextL t := by
  intro pre
  induction pre with
  | nil => intro _ t; rfl
  | cons c cs ih =>
    intro h t
    rw [List.cons_append,
      toPlainTextL_none (matchBrTag_cons_none (h c (List.mem_cons_self _ _))),
      ih (fun x hx => h x (List.mem_cons_of_mem _ hx)) t]
    rfl

/-- `toPlainText` turns a whole line-break marker into one newline. -/
theorem toPlainTextL_marker {m : List Char} (hm : IsBrMarker m)
    (post : List Char) :
    toPlainTextL (m ++ post) = Char.ofNat 10 :: toPlainTextL post :=
  toPlainTextL_some (matchBrTag_marker hm post)

/-- C8: the display pipeline escapes all markup and then re-enables only the
line-break marker as a literal `<br>` (so the rendered HTML decomposes into
`<br>` blocks and markup-free characters, and a marker embedded in otherwise
`<`-free context becomes exactly one `<br>`); the sharing pipeline converts
each line-break marker into a literal newline before composing the shared
text. -/
theorem claim_C8_sanitize_and_share (text : String) (pre m post : List Char)
    (hpre : ∀ c ∈ pre, c ≠ '<') (hm : IsBrMarker m) :
    BrSafe (citationHtml text).data ∧
    reEnableBr (escapeHtmlL (pre ++ m ++ post)) =
      escapeHtmlL pre ++ '<' :: 'b' :: 'r' :: '>' :: reEnableBr (escapeHtmlL post) ∧
    toPlainTextL (pre ++ m ++ post) = pre ++ Char.ofNat 10 :: toPlainTextL post ∧
    shareText (String.mk (pre ++ m ++ post)) none =
      String.mk (pre ++ Char.ofNat 10 :: toPlainTextL post) := by
  have hplain : toPlainTextL (pre ++ m ++ post) =
      pre ++ Char.ofNat 10 :: toPlainTextL post := by
    rw [List.append_assoc, toPlainTextL_prefix pre hpre,
      toPlainTextL_marker hm post]
  refine ⟨?_, ?_, hplain, ?_⟩
  · show BrSafe (reEnableBr (escapeHtmlL text.data))
    refine brSafe_reEnableBr (escapeHtmlL text.data).length _ le_rfl ?_
    intro c hc
    constructor
    · rintro rfl
      exact not_mem_escapeHtmlL_lt _ hc
    · rintro rfl
      exact not_mem_escapeHtmlL_gt _ hc
  · rw [escapeHtmlL_append, escapeHtmlL_append, List.append_assoc,
      reEnableBr_escPrefix pre hpre,
      reEnableBr_some (matchBrEnt_escMarker hm (escapeHtmlL post))]
  · show toPlainText (String.mk (pre ++ m ++ post)) = _
    show String.mk (toPlainTextL (pre ++ m ++ post)) = _
    rw [hplain]

/-- C8 witness: text `a<b>`, and the marker `<br />` between an `a` and an
`x`. -/
theorem claim_C8_sanitize_and_share_witness :
    (∀ c ∈ [ 'a' ], c ≠ '<') ∧
    IsBrMarker "<br />".data ∧
    (BrSafe (citationHtml "a<b>").data ∧
    reEnableBr (escapeHtmlL ([ 'a' ] ++ "<br />".data ++ [ 'x' ])) =
      escapeHtmlL [ 'a' ] ++ '<' :: 'b' :: 'r' :: '>' ::
        reEnableBr (escapeHtmlL [ 'x' ]) ∧
    toPlainTextL ([ 'a' ] ++ "<br />".data ++ [ 'x' ]) =
      [ 'a' ] ++ Char.ofNat 10 :: toPlainTextL [ 'x' ] ∧
    shareText (String.mk ([ 'a' ] ++ "<br />".data ++ [ 'x' ])) none =
      String.mk ([ 'a' ] ++ Char.ofNat 10 :: toPlainTextL [ 'x' ])) :=
  ⟨by decide,
    ⟨'b', 'r', [ ' ' ], [ '/' ], Or.inl rfl, Or.inl rfl, by decide,
      Or.inr rfl, by decide⟩,
    claim_C8_sanitize_and_share "a<b>" [ 'a' ] "<br />".data [ 'x' ]
      (by decide)
      ⟨'b', 'r', [ ' ' ], [ '/' ], Or.inl rfl, Or.inl rfl, by decide,
        Or.inr rfl, by decide⟩⟩
